import Mathlib

/-!
Verification of the ftp-over-s3 gateway (Go sources: auth.go, ftp_client.go,
s3_server.go) against its natural-language specification.  The Go code is
shallowly embedded: strings are Lean `String`s manipulated through their
character lists, so that every helper mirrors the corresponding function of
Go's `strings` / `path/filepath` packages at the call sites used by the
repository (all separators at those call sites are single ASCII characters,
and all inputs of interest are ASCII, so byte indices and character indices
coincide).
-/

set_option maxHeartbeats 1000000

namespace FtpOverS3

/-- Go `strings.Split(s, sep)` for a one-character separator, on character
lists: `goSplitC sep d` splits `d` around every occurrence of `sep`.
Like Go, the result is never empty and splitting the empty string gives
`[[]]`. -/
def goSplitC (sep : Char) : List Char → List (List Char)
  | [] => [[]]
  | c :: rest =>
    if c = sep then [] :: goSplitC sep rest
    else
      match goSplitC sep rest with
      | [] => [[c]]
      | p :: ps => (c :: p) :: ps

/-- Split at the first occurrence of `sep`: `none` when `sep` is absent.
Used to model Go `strings.SplitN(s, sep, 2)`. -/
def breakAt (sep : Char) : List Char → Option (List Char × List Char)
  | [] => none
  | c :: rest =>
    if c = sep then some ([], rest)
    else (breakAt sep rest).map (fun p => (c :: p.1, p.2))

/-- Go `strings.SplitN(s, sep, 2)` for a one-character separator. -/
def goSplitN2 (s : String) (sep : Char) : List String :=
  match breakAt sep s.data with
  | none => [s]
  | some (a, b) => [⟨a⟩, ⟨b⟩]

/-- Go `strings.Split(s, sep)` for a one-character separator, on `String`. -/
def goSplit (s : String) (sep : Char) : List String :=
  (goSplitC sep s.data).map (fun d => ⟨d⟩)

/-- `isSubstr sub d` : does `d` contain `sub` as a contiguous run? -/
def isSubstr (sub : List Char) : List Char → Bool
  | [] => sub.isPrefixOf []
  | c :: rest => sub.isPrefixOf (c :: rest) || isSubstr sub rest

/-- Go `strings.Contains(s, sub)`. -/
def goContains (s sub : String) : Bool := isSubstr sub.data s.data

/-- Go `strings.ToLower` (the error messages matched by the code are ASCII). -/
def goToLower (s : String) : String := ⟨s.data.map Char.toLower⟩

/-- Go `strings.TrimPrefix(s, pre)`: drop `pre` when it is a leading run of
`s`, otherwise return `s` unchanged. -/
def goTrimPfx (s pre : String) : String :=
  if pre.data.isPrefixOf s.data then ⟨s.data.drop pre.data.length⟩ else s

/-- Go `strings.TrimSuffix(s, suf)`. -/
def goTrimSuffix (s suf : String) : String :=
  if suf.data.isSuffixOf s.data then ⟨s.data.take (s.data.length - suf.data.length)⟩ else s

/-- Go `strings.Trim(s, "/")`: remove leading and trailing `'/'` runs. -/
def goTrimSlashes (s : String) : String :=
  ⟨((s.data.dropWhile (fun c => c == '/')).reverse.dropWhile (fun c => c == '/')).reverse⟩

/-- Go `strings.Count(s, "/")` (a one-character pattern counts characters). -/
def goCountSlash (s : String) : Nat := s.data.count '/'

/-- Go `strings.Index(rest, delim)` as an `Option`: `some i` is the first
index at which `delim` occurs, `none` stands for Go's `-1`. -/
def idxOfSub (sub : List Char) : List Char → Option Nat
  | [] => if sub.isPrefixOf ([] : List Char) then some 0 else none
  | c :: rest =>
    if sub.isPrefixOf (c :: rest) then some 0
    else (idxOfSub sub rest).map (· + 1)

/-! ### Go `path/filepath.Clean` (Unix rules), segment-wise

`filepath.Clean` on Unix: split on `'/'`, drop empty and `"."` segments,
let `".."` pop the previous real segment (rooted paths drop an unmatched
`".."`, relative paths keep it), then rejoin; an empty relative result is
`"."`, a rooted result keeps its single leading slash. -/

/-- The `".."` segment. -/
def dd : List Char := ['.', '.']

/-- One segment step of `filepath.Clean`'s element processing; `acc` is the
output stack in reverse order. -/
def cleanStep (rooted : Bool) (acc : List (List Char)) (c : List Char) : List (List Char) :=
  if c = [] ∨ c = ['.'] then acc
  else if c = dd then
    match acc with
    | [] => if rooted then [] else [dd]
    | top :: rest => if top = dd then dd :: top :: rest else rest
  else c :: acc

/-- The cleaned segment stack of a path, in order. -/
def cleanStack (rooted : Bool) (comps : List (List Char)) : List (List Char) :=
  (comps.foldl (cleanStep rooted) []).reverse

/-- Rejoin segments with `'/'`. -/
def interSlash : List (List Char) → List Char
  | [] => []
  | [c] => c
  | c :: c2 :: rest => c ++ '/' :: interSlash (c2 :: rest)

/-- `filepath.Clean` on character lists. -/
def cleanD (d : List Char) : List Char :=
  if d = [] then ['.']
  else
    let rooted : Bool := d.head? = some '/'
    let body := interSlash (cleanStack rooted (goSplitC '/' d))
    if rooted then '/' :: body
    else if body = [] then ['.'] else body

/-- Go `path/filepath.Clean` (Unix). -/
def clean (s : String) : String := ⟨cleanD s.data⟩

/-- The path normalization used by every Backend Session operation
(`ftp_client.go`: `List`, `Get`, `Put`, `Delete`, `createDirectories`):
`strings.TrimPrefix(filepath.Clean(path), "/")`. -/
def normalize (p : String) : String := goTrimPfx (clean p) "/"

/-- Go `filepath.Base` (Unix): strip trailing slashes, then keep everything
after the last slash; `""` gives `"."`, an all-slash path gives `"/"`. -/
def goBaseD (d : List Char) : List Char :=
  if d = [] then ['.']
  else
    let d1 := d.reverse.dropWhile (fun c => c == '/')
    if d1 = [] then ['/']
    else (d1.takeWhile (fun c => c != '/')).reverse

/-- Go `filepath.Base` on `String`. -/
def goBase (s : String) : String := ⟨goBaseD s.data⟩

/-- Go `filepath.Dir` (Unix): `Clean` of everything up to and including the
last slash (`Clean("")` = `"."` when there is no slash). -/
def goDirD (d : List Char) : List Char :=
  cleanD ((d.reverse.dropWhile (fun c => c != '/')).reverse)

/-- Go `filepath.Dir` on `String`. -/
def goDir (s : String) : String := ⟨goDirD s.data⟩

/-! ### ftp_client.go: transient-error classification and the
one-shot reconnect-and-retry pattern -/

/-- `FTPClient.handleConnectionError`'s transient-connectivity test: lowercase
the error text and look for the six known connectivity signatures. -/
def isTransientErr (e : String) : Bool :=
  let m := goToLower e
  goContains m "broken pipe" || goContains m "connection reset" ||
  goContains m "connection refused" || goContains m "i/o timeout" ||
  goContains m "no connection" || goContains m "connection closed"

/-- Outcome of one Backend Session operation together with how many reconnect
attempts and how many retries of the operation were performed. -/
structure RetryTrace (α : Type) where
  result : Except String α
  reconnects : Nat
  retries : Nat
deriving Repr

/-- `FTPClient.List`'s error path (ftp_client.go lines 95-105): `first` is
the first `conn.List` result, `retry2` the result of the retry after a
successful reconnect, `reconnectErr` the outcome of `reconnect()` (`none` =
reconnected).  A non-transient first error returns at once, wrapped
`"failed to list directory: <err>"`; a transient one reconnects, and on a
failed reconnect returns the original error with the same wrap; the retry's
failure is wrapped `"failed to list directory after reconnect: <err>"`. -/
def listRetry {α : Type} (first retry2 : Except String α) (reconnectErr : Option String) :
    RetryTrace α :=
  match first with
  | .ok v => ⟨.ok v, 0, 0⟩
  | .error e =>
    if isTransientErr e then
      match reconnectErr with
      | some _ => ⟨.error ("failed to list directory: " ++ e), 1, 0⟩
      | none =>
        match retry2 with
        | .ok v => ⟨.ok v, 1, 1⟩
        | .error e2 => ⟨.error ("failed to list directory after reconnect: " ++ e2), 1, 1⟩
    else ⟨.error ("failed to list directory: " ++ e), 0, 0⟩

/-- The error path shared by `FTPClient.Get` (`conn.Retr`), the `conn.Stor`
phase of `FTPClient.Put`, and `FTPClient.Delete`: identical control flow to
`listRetry` but every surfaced error is returned unmodified. -/
def getRetry {α : Type} (first retry2 : Except String α) (reconnectErr : Option String) :
    RetryTrace α :=
  match first with
  | .ok v => ⟨.ok v, 0, 0⟩
  | .error e =>
    if isTransientErr e then
      match reconnectErr with
      | some _ => ⟨.error e, 1, 0⟩
      | none =>
        match retry2 with
        | .ok v => ⟨.ok v, 1, 1⟩
        | .error e2 => ⟨.error e2, 1, 1⟩
    else ⟨.error e, 0, 0⟩

/-- `createDirectories`' already-exists test: lowercase the MakeDir error
text and look for the five recognized "directory already exists" /
"cannot create" signatures (ftp_client.go lines 252-257 and 275-280). -/
def isAlreadyExistsErr (e : String) : Bool :=
  let m := goToLower e
  goContains m "file exists" || goContains m "directory exists" ||
  goContains m "already exists" || goContains m "cannot create" ||
  goContains m "create directory operation failed"

/-- The backend as `FTPClient.Put`'s directory-creation and store phases see
it: scripted outcomes for the successive `directoryExists` listings (`true`
= the `conn.List` probe succeeded), `conn.MakeDir` calls, `reconnect()`
attempts and `conn.Stor` calls, plus a count of the reconnect attempts
performed so far.  An exhausted script defaults to success. -/
structure FTPState where
  listOk : List Bool
  mkdir : List (Option String)
  reconnect : List (Option String)
  stor : List (Option String)
  reconnects : Nat
deriving DecidableEq, Repr

/-- Consume the next scripted `directoryExists` probe outcome. -/
def popListOk (st : FTPState) : Bool × FTPState :=
  match st.listOk with
  | [] => (true, st)
  | b :: rest => (b, { st with listOk := rest })

/-- Consume the next scripted `conn.MakeDir` outcome. -/
def popMkdir (st : FTPState) : Option String × FTPState :=
  match st.mkdir with
  | [] => (none, st)
  | e :: rest => (e, { st with mkdir := rest })

/-- Consume the next scripted `reconnect()` outcome. -/
def popReconnect (st : FTPState) : Option String × FTPState :=
  match st.reconnect with
  | [] => (none, st)
  | e :: rest => (e, { st with reconnect := rest })

/-- Consume the next scripted `conn.Stor` outcome. -/
def popStor (st : FTPState) : Option String × FTPState :=
  match st.stor with
  | [] => (none, st)
  | e :: rest => (e, { st with stor := rest })

/-- `FTPClient.handleConnectionError` on the scripted state: a transient
error consumes (and counts) one `reconnect()` attempt and returns its
outcome; a non-transient error is returned as is, with no reconnect. -/
def handleConnErrS (st : FTPState) (e : String) : Option String × FTPState :=
  if isTransientErr e then
    match popReconnect st with
    | (r, st2) => (r, { st2 with reconnects := st2.reconnects + 1 })
  else (some e, st)

/-- `FTPClient.directoryExists`: `""` and `"."` exist trivially, any other
path is probed with one `conn.List` call. -/
def directoryExistsS (st : FTPState) (path : String) : Bool × FTPState :=
  if path == "" || path == "." then (true, st)
  else popListOk st

/-- The segment loop of `FTPClient.createDirectories` (ftp_client.go lines
240-295): walk the path segments accumulating `current`; skip empty
segments and segments whose directory already exists; otherwise `MakeDir`,
treating an already-exists error as success; a transient `MakeDir` failure
gets its own one-shot reconnect, re-probe and retry, and any error that
survives is returned **raw**. -/
def createDirsLoop : List String → String → FTPState → Option String × FTPState
  | [], _, st => (none, st)
  | part :: rest, current, st =>
    if part == "" then createDirsLoop rest current st
    else
      let current2 := if current == "" then part else current ++ "/" ++ part
      match directoryExistsS st current2 with
      | (true, st1) => createDirsLoop rest current2 st1
      | (false, st1) =>
        match popMkdir st1 with
        | (none, st2) => createDirsLoop rest current2 st2
        | (some err, st2) =>
          if isAlreadyExistsErr err then createDirsLoop rest current2 st2
          else
            match handleConnErrS st2 err with
            | (some _, st3) => (some err, st3)
            | (none, st3) =>
              match directoryExistsS st3 current2 with
              | (true, st4) => createDirsLoop rest current2 st4
              | (false, st4) =>
                match popMkdir st4 with
                | (none, st5) => createDirsLoop rest current2 st5
                | (some err2, st5) =>
                  if isAlreadyExistsErr err2 then createDirsLoop rest current2 st5
                  else (some err2, st5)

/-- `FTPClient.createDirectories`: normalize, split on `"/"`, walk. -/
def createDirectoriesS (path : String) (st : FTPState) : Option String × FTPState :=
  createDirsLoop (goSplit (normalize path) '/') "" st

/-- The `conn.Stor` phase of `FTPClient.Put`: one-shot reconnect-and-retry,
every surfaced error raw. -/
def storRetryS (st : FTPState) : Option String × FTPState :=
  match popStor st with
  | (none, st1) => (none, st1)
  | (some err, st1) =>
    match handleConnErrS st1 err with
    | (some _, st2) => (some err, st2)
    | (none, st2) => popStor st2

/-- `FTPClient.Put` (ftp_client.go lines 158-189), after a successful
`connect()`: normalize the path; when the parent directory is not `"."`,
run `createDirectories`, and around it a **second** layer of
reconnect-and-retry — a transient `createDirectories` failure consumes
another `reconnect()` and re-runs the whole directory walk (whose segments
carry their own reconnects), and both surfaced failures are wrapped with
`"failed to create directories[ after reconnect]: "`; then the store
phase. -/
def putOpS (path : String) (st : FTPState) : Option String × FTPState :=
  let dir := goDir (normalize path)
  if dir == "." then storRetryS st
  else
    match createDirectoriesS dir st with
    | (none, st1) => storRetryS st1
    | (some err, st1) =>
      match handleConnErrS st1 err with
      | (some _, st2) => (some ("failed to create directories: " ++ err), st2)
      | (none, st2) =>
        match createDirectoriesS dir st2 with
        | (none, st3) => storRetryS st3
        | (some err2, st3) =>
          (some ("failed to create directories after reconnect: " ++ err2), st3)

/-! ### auth.go: credential store and signature-verification middleware -/

structure Credentials where
  accessKeyID : String
  secretAccessKey : String
deriving DecidableEq, Repr

/-- The credential store's lookup (`CredentialsStore.GetCredentials`); the
map is modelled as the list of its entries. -/
def getCredentials (store : List Credentials) (accessKeyID : String) : Option Credentials :=
  store.find? (fun c => c.accessKeyID == accessKeyID)

/-- An HTTP request as the middleware and gateway see it: method, URL path,
query parameters and headers as association lists, and the body bytes. -/
structure Request where
  method : String
  path : String
  query : List (String × String)
  headers : List (String × String)
  body : String
deriving DecidableEq, Repr, Inhabited

/-- `http.Header.Get` / `url.Values.Get`: first value under the key, `""`
when absent. -/
def assocGet (hs : List (String × String)) (k : String) : String :=
  match hs.find? (fun p => p.1 == k) with
  | some p => p.2
  | none => ""

/-- `http.Header.Set`: replace every value under `k` by the single pair
`(k, v)`. -/
def assocSet (hs : List (String × String)) (k v : String) : List (String × String) :=
  (k, v) :: hs.filter (fun p => p.1 != k)

/-- Modelled from the AWS SDK dependency (not part of this repository):
`v4.Signer.SignHTTP(ctx, creds, r, payloadHash, "s3", "us-east-1", now)`
signs the request **in place** — it sets `X-Amz-Date` and overwrites the
`Authorization` header with a freshly computed SigV4 value — and returns a
nil error for well-formed inputs.  It never reads or compares the
previously presented signature.  The signature computation itself is kept
abstract as the function `signAuth`. -/
def signHTTP (signAuth : Credentials → Request → String) (amzDate : String)
    (creds : Credentials) (r : Request) : Request :=
  let hs := assocSet (assocSet r.headers "X-Amz-Date" amzDate) "Authorization" (signAuth creds r)
  { r with headers := hs }

/-- What `AuthMiddleware.ServeHTTP` does with a request: forward it (possibly
re-signed) to the wrapped handler, reject it with a status and message, or
hit the out-of-bounds slice index in the header parsing. -/
inductive AuthOutcome where
  | forwarded (r : Request)
  | rejected (status : Nat) (msg : String)
  | indexPanic
deriving DecidableEq, Repr

/-- `true` exactly on `forwarded` outcomes. -/
def AuthOutcome.isForwarded : AuthOutcome → Bool
  | .forwarded _ => true
  | _ => false

/-- The forwarded request (a default request on the other outcomes). -/
def AuthOutcome.fwdReq : AuthOutcome → Request
  | .forwarded r => r
  | _ => default

/-- `AuthMiddleware.ServeHTTP` (auth.go lines 54-124).  Skips authentication
when the store is empty or the path is `/health`; requires an
`Authorization` header; splits it as `SplitN(auth, " ", 2)` and checks the
scheme token; takes `Split(parts[1], ",")[0]`, then
`Split(credStr, "=")[1]` — an out-of-bounds access when the payload has no
`"="` — then `Split(…, "/")`, requiring five parts; looks the access key up;
and finally calls `signer.SignHTTP`, which re-signs the request and only
fails for malformed inputs (never for a wrong presented signature), before
forwarding to the wrapped handler. -/
def serveAuth (store : List Credentials) (signAuth : Credentials → Request → String)
    (amzDate : String) (r : Request) : AuthOutcome :=
  if store.isEmpty || r.path == "/health" then .forwarded r
  else
    match assocGet r.headers "Authorization" with
    | "" => .rejected 401 "Authorization header required"
    | auth =>
      match goSplitN2 auth ' ' with
      | [p0, p1] =>
        if p0 == "AWS4-HMAC-SHA256" then
          match goSplit ((goSplit p1 ',').headD "") '=' with
          | _ :: v :: _ =>
            if (goSplit v '/').length == 5 then
              match getCredentials store ((goSplit v '/').headD "") with
              | some creds => .forwarded (signHTTP signAuth amzDate creds r)
              | none => .rejected 401 "Invalid access key ID"
            else .rejected 401 "Invalid credential format"
          | _ => .indexPanic
        else .rejected 401 "Invalid Authorization header format"
      | _ => .rejected 401 "Invalid Authorization header format"

/-! ### s3_server.go: the protocol gateway -/

/-- One FTP directory-listing row (`FileInfo` in ftp_client.go); the
modification time is kept as an abstract timestamp. -/
structure FileInfo where
  name : String
  size : Int
  modTime : Nat
  isDir : Bool
deriving DecidableEq, Repr

/-- An S3 listing entry (`S3Object` in s3_server.go). -/
structure S3Object where
  key : String
  lastModified : Nat
  etag : String
  size : Int
  storageClass : String
deriving DecidableEq, Repr

/-- The synthetic constant ETag the gateway attaches to every object
(the MD5 of empty content). -/
def emptyMD5 : String := "\"d41d8cd98f00b204e9800998ecf8427e\""

/-- The `S3Object` built for key `key` from entry `f` (loop bodies of
`handleListObjectsV2` / `handleListObjects`). -/
def mkObj (key : String) (f : FileInfo) : S3Object :=
  ⟨key, f.modTime, emptyMD5, f.size, "STANDARD"⟩

/-- The `ListBucketV2Result` XML payload. -/
structure ListV2Result where
  name : String
  pfx : String
  keyCount : Nat
  maxKeys : Nat
  delimiter : String
  isTruncated : Bool
  contents : List S3Object
  commonPfxs : List String
deriving DecidableEq, Repr

/-- The legacy `ListBucketResult` (V1) XML payload. -/
structure ListV1Result where
  name : String
  pfx : String
  marker : String
  contents : List S3Object
deriving DecidableEq, Repr

/-- The Backend Session as the gateway sees it: the final outcome of each
`FTPClient` operation (normalization and the reconnect-and-retry policy of
ftp_client.go happen inside these functions). -/
structure Backend where
  list : String → Except String (List FileInfo)
  retr : String → Except String String
  stor : String → Option String
  del : String → Option String

/-- Abstract rendering of `ModTime.UTC().Format(http.TimeFormat)`; the
wall-clock formatting itself is outside the model, the claims only use
that the header carries the listed entry's modification time. -/
def formatHTTPTime (t : Nat) : String := toString t

/-- An HTTP response of the gateway: status, plain body, headers, the
structured XML payload when one is encoded, and the ordered list of Backend
Session operations the handler invoked. -/
structure Response where
  status : Nat
  body : String
  headers : List (String × String)
  ops : List String
  v2 : Option ListV2Result := none
  v1 : Option ListV1Result := none
deriving DecidableEq, Repr

/-- `strings.HasPrefix(name, ".")` — the gateway's hidden-entry test. -/
def hiddenName (n : String) : Bool := ".".data.isPrefixOf n.data

/-- The candidate key of entry `f` found in directory `ftpPath`
(`handleListObjectsV2` / `handleListObjects`): the bare name at the root,
otherwise `ftpPath + "/" + name`, with `"/"` appended for directories. -/
def mkKey (ftpPath : String) (f : FileInfo) : String :=
  let n := if ftpPath == "." then f.name else ftpPath ++ "/" ++ f.name
  if f.isDir then n ++ "/" else n

/-- The FTP directory resolved from the listing prefix (both listing
handlers): strip one trailing `"/"`; empty means the current directory. -/
def resolveFtpPath (pfx : String) : String :=
  if pfx == "" then "."
  else
    let t := goTrimSuffix pfx "/"
    if t == "" then "." else t

/-- Accumulator of the V2 listing loop: emitted contents, emitted common
prefixes in order, and the key set of the `commonPrefixes` dedup map. -/
structure V2Acc where
  contents : List S3Object
  cpfxs : List String
  seen : List String
deriving DecidableEq, Repr

/-- One iteration of the `handleListObjectsV2` file loop: skip hidden and
pseudo entries; with a delimiter, a candidate whose prefix-stripped rest
contains the delimiter contributes (at most once) the common prefix
`prefix + rest[:i+1]` and is not a content entry; otherwise the candidate
is a content entry. -/
def v2Step (pfx delim ftpPath : String) (st : V2Acc) (f : FileInfo) : V2Acc :=
  if hiddenName f.name then st
  else if f.name == "." || f.name == ".." then st
  else
    let name := mkKey ftpPath f
    if delim != "" then
      let rest := goTrimPfx name pfx
      match idxOfSub delim.data rest.data with
      | some i =>
        let cp := pfx ++ (⟨rest.data.take (i + 1)⟩ : String)
        if cp ∈ st.seen then st
        else ⟨st.contents, st.cpfxs ++ [cp], st.seen ++ [cp]⟩
      | none => ⟨st.contents ++ [mkObj name f], st.cpfxs, st.seen⟩
    else ⟨st.contents ++ [mkObj name f], st.cpfxs, st.seen⟩

/-- `S3Server.handleListObjectsV2`. -/
def handleListObjectsV2 (b : Backend) (r : Request) : Response :=
  let pfx := assocGet r.query "prefix"
  let delim := assocGet r.query "delimiter"
  let bucket0 := goTrimSlashes r.path
  let bucket := if bucket0 == "" then "default" else bucket0
  let base : ListV2Result := ⟨bucket, pfx, 0, 1000, delim, false, [], []⟩
  let ftpPath := resolveFtpPath pfx
  match b.list ftpPath with
  | .error e =>
    if goContains e "550" then
      { status := 200, body := "", headers := [("Content-Type", "application/xml")],
        ops := ["list " ++ ftpPath], v2 := some base }
    else
      { status := 500, body := e ++ "\n", headers := [], ops := ["list " ++ ftpPath] }
  | .ok files =>
    let acc := files.foldl (v2Step pfx delim ftpPath) ⟨[], [], []⟩
    { status := 200, body := "", headers := [("Content-Type", "application/xml")],
      ops := ["list " ++ ftpPath],
      v2 := some { base with keyCount := acc.contents.length + acc.cpfxs.length,
                             contents := acc.contents, commonPfxs := acc.cpfxs } }

/-- One iteration of the `handleListObjects` (V1) file loop: same skips and
key construction, no delimiter grouping. -/
def v1Step (ftpPath : String) (st : List S3Object) (f : FileInfo) : List S3Object :=
  if hiddenName f.name then st
  else if f.name == "." || f.name == ".."  then st
  else st ++ [mkObj (mkKey ftpPath f) f]

/-- `S3Server.handleListObjects` (legacy V1 listing). -/
def handleListObjects (b : Backend) (r : Request) : Response :=
  let pfx := assocGet r.query "prefix"
  let base : ListV1Result := ⟨"default", pfx, "", []⟩
  let ftpPath := resolveFtpPath pfx
  match b.list ftpPath with
  | .error e =>
    if goContains e "550" then
      { status := 200, body := "", headers := [("Content-Type", "application/xml")],
        ops := ["list " ++ ftpPath], v1 := some base }
    else
      { status := 500, body := e ++ "\n", headers := [], ops := ["list " ++ ftpPath] }
  | .ok files =>
    { status := 200, body := "", headers := [("Content-Type", "application/xml")],
      ops := ["list " ++ ftpPath],
      v1 := some { base with contents := files.foldl (v1Step ftpPath) [] } }

/-- `S3Server.handleListBuckets`: a fixed single-bucket XML document (its
creation date is `time.Now()`, outside the model); no backend call. -/
def handleListBuckets : Response :=
  { status := 200, body := "", headers := [("Content-Type", "application/xml")], ops := [] }

/-- The object path of `handleGet` / `handlePut` / `handleDelete`: strip the
`/default/` bucket segment, then turn `"."` or `""` into `""`. -/
def objectPath (urlPath : String) : String :=
  let p := goTrimPfx urlPath "/default/"
  if p == "." || p == "" then "" else p

/-- `S3Server.handleGet`. -/
def handleGet (b : Backend) (r : Request) : Response :=
  let path := objectPath r.path
  match b.retr path with
  | .error e =>
    if goContains e "550" then
      { status := 404, body := "Key \"" ++ path ++ "\" does not exist\n", headers := [],
        ops := ["retr " ++ path] }
    else { status := 500, body := e ++ "\n", headers := [], ops := ["retr " ++ path] }
  | .ok content =>
    { status := 200, body := content,
      headers := [("Content-Type", "application/octet-stream"), ("ETag", emptyMD5)],
      ops := ["retr " ++ path] }

/-- `S3Server.handlePut`. -/
def handlePut (b : Backend) (r : Request) : Response :=
  let path := objectPath r.path
  match b.stor path with
  | some e => { status := 500, body := e ++ "\n", headers := [], ops := ["stor " ++ path] }
  | none => { status := 200, body := "", headers := [("ETag", emptyMD5)], ops := ["stor " ++ path] }

/-- `S3Server.handleDelete`: 204 with no body on success; an error carrying
the FTP not-found code 550 becomes a 404 naming the key; any other error a
500. -/
def handleDelete (b : Backend) (r : Request) : Response :=
  let path := objectPath r.path
  match b.del path with
  | none => { status := 204, body := "", headers := [], ops := ["dele " ++ path] }
  | some e =>
    if goContains e "550" then
      { status := 404, body := "Key \"" ++ path ++ "\" does not exist\n", headers := [],
        ops := ["dele " ++ path] }
    else { status := 500, body := e ++ "\n", headers := [], ops := ["dele " ++ path] }

/-- `S3Server.handleHead`: list the parent directory (`filepath.Dir`, with
`"."` mapped to `""`), then linear-scan for the first entry whose name is
`filepath.Base(path)`. -/
def handleHead (b : Backend) (r : Request) : Response :=
  let path := goTrimPfx r.path "/default/"
  let dir0 := goDir path
  let base := goBase path
  let dir := if dir0 == "." then "" else dir0
  match b.list dir with
  | .error e =>
    if goContains e "550" then
      { status := 404, body := "Key \"" ++ path ++ "\" does not exist\n", headers := [],
        ops := ["list " ++ dir] }
    else { status := 500, body := e ++ "\n", headers := [], ops := ["list " ++ dir] }
  | .ok files =>
    match files.find? (fun f => f.name == base) with
    | some f =>
      { status := 200, body := "",
        headers := [("Content-Length", toString f.size),
                    ("Last-Modified", formatHTTPTime f.modTime), ("ETag", emptyMD5),
                    ("Accept-Ranges", "bytes"), ("Content-Type", "application/octet-stream")],
        ops := ["list " ++ dir] }
    | none =>
      { status := 404, body := "Key \"" ++ path ++ "\" does not exist\n", headers := [],
        ops := ["list " ++ dir] }

/-- `S3Server.ServeHTTP` (method + path + query dispatch).  The `/health`
branch performs `w.Write([]byte("ok"))` followed by a superfluous
`WriteHeader(200)`: the effective response is status 200 with body
`"ok"`. -/
def serveS3 (b : Backend) (r : Request) : Response :=
  if r.method == "GET" then
    if goCountSlash r.path == 1 && assocGet r.query "list-type" == "2"
        && goTrimSlashes r.path == "default" then
      handleListObjectsV2 b r
    else if r.path == "/" then
      if assocGet r.query "list-type" == "2" then handleListObjectsV2 b r
      else if assocGet r.query "list-type" != "" || assocGet r.query "prefix" != "" then
        handleListObjects b r
      else handleListBuckets
    else if r.path == "/health" then { status := 200, body := "ok", headers := [], ops := [] }
    else handleGet b r
  else if r.method == "HEAD" then handleHead b r
  else if r.method == "PUT" then handlePut b r
  else if r.method == "DELETE" then handleDelete b r
  else { status := 405, body := "Method not allowed\n", headers := [], ops := [] }

/-! ### Concrete fixtures used to instantiate the claims -/

/-- A store holding the single configured credential pair. -/
def storeA : List Credentials := [⟨"AKID", "SECRET"⟩]

/-- A concrete stand-in for the SigV4 computation: the header value the
signer would produce for the stored secret. -/
def sigFun : Credentials → Request → String := fun c _ =>
  "AWS4-HMAC-SHA256 Credential=" ++ c.accessKeyID ++
    "/20250101/us-east-1/s3/aws4_request, SignedHeaders=host, Signature=cafef00d"

/-- A request whose Authorization header is well-formed, names the stored
access key, but carries a signature different from the recomputed one. -/
def reqBadSig : Request :=
  ⟨"GET", "/default/x", [],
   [("Authorization",
     "AWS4-HMAC-SHA256 Credential=AKID/20250101/us-east-1/s3/aws4_request, SignedHeaders=host, Signature=badbadbad")],
   ""⟩

/-- The request the middleware actually hands to the gateway for
`reqBadSig`: the same request with `Authorization` overwritten by the
re-signed value and `X-Amz-Date` set. -/
def reqSigned : Request :=
  ⟨"GET", "/default/x", [],
   [("Authorization",
     "AWS4-HMAC-SHA256 Credential=AKID/20250101/us-east-1/s3/aws4_request, SignedHeaders=host, Signature=cafef00d"),
    ("X-Amz-Date", "20250101T000000Z")],
   ""⟩

/-- A request whose Authorization payload lacks any `"="`: the shape that
reaches the out-of-bounds index in `ServeHTTP`'s parsing. -/
def reqNoEq : Request :=
  ⟨"GET", "/default/x", [], [("Authorization", "AWS4-HMAC-SHA256 garbage")], ""⟩

/-- A backend whose directory `a` holds the file `x.txt` and the
subdirectory `sub` — i.e. the backend paths `a/x.txt` and `a/sub/y.txt` of
the claim's scenario. -/
def bEx : Backend :=
  ⟨fun p => if p == "a" then .ok [⟨"x.txt", 3, 5, false⟩, ⟨"sub", 0, 6, true⟩]
            else .error "550 no such directory",
   fun _ => .error "unused", fun _ => none, fun _ => none⟩

/-- The V2 listing request with `prefix=a/` and `delimiter=/`. -/
def rEx : Request :=
  ⟨"GET", "/default", [("list-type", "2"), ("prefix", "a/"), ("delimiter", "/")], [], ""⟩

/-- A backend on which every listing fails with the FTP not-found code. -/
def bMiss : Backend :=
  ⟨fun _ => .error "failed to list directory: 550 No such file or directory",
   fun _ => .error "unused", fun _ => none, fun _ => none⟩

/-- A backend that deletes `a/b.txt` successfully and reports 550 for
`gone.txt`. -/
def bDel : Backend :=
  ⟨fun _ => .error "unused", fun _ => .error "unused", fun _ => none,
   fun p => if p == "gone.txt" then some "550 gone.txt: No such file or directory" else none⟩

/-- A backend whose root listing holds the hidden entry `.hidden` next to a
visible file. -/
def bHid : Backend :=
  ⟨fun p => if p == "" then .ok [⟨".hidden", 5, 7, false⟩, ⟨"vis.txt", 3, 8, false⟩]
            else .error "550 no such directory",
   fun _ => .error "unused", fun _ => none, fun _ => none⟩

/-- A GET request for `/health` carrying a listing query parameter. -/
def rHealth : Request := ⟨"GET", "/health", [("list-type", "2")], [], ""⟩

/-- The root listing of `bHid`. -/
def filesHid : List FileInfo := [⟨".hidden", 5, 7, false⟩, ⟨"vis.txt", 3, 8, false⟩]

/-- A backend script under which `Put "a/b/f.txt"` performs three reconnect
attempts in one operation: directory `a` never exists, every `MakeDir`
fails with the transient `"broken pipe"`, and every `reconnect()`
succeeds. -/
def stPutCex : FTPState :=
  ⟨[false, false, false, false],
   [some "broken pipe", some "broken pipe", some "broken pipe", some "broken pipe"],
   [none, none, none], [], 0⟩

/-- The hidden entry of `filesHid`. -/
def fHid : FileInfo := ⟨".hidden", 5, 7, false⟩

/-- Invariant of `cleanStep`'s accumulator (the output stack in reverse):
every held segment is non-empty, is not `"."` and holds no separator, and
the `".."` segments form a contiguous block at the end of the accumulator
(the front of the final stack). -/
def GoodAcc (acc : List (List Char)) : Prop :=
  (∀ c ∈ acc, c ≠ [] ∧ c ≠ ['.'] ∧ '/' ∉ c) ∧
  ∃ front k, acc = front ++ List.replicate k dd ∧ dd ∉ front

/-! ### Helper lemmas -/

theorem isPrefixOf_append_self (p k : List Char) : p.isPrefixOf (p ++ k) = true := by
  induction p with
  | nil => simp [List.isPrefixOf]
  | cons a t ih => simp [List.isPrefixOf, ih]

theorem goTrimPfx_append (pre s : String) : goTrimPfx (pre ++ s) pre = s := by
  have hd : (pre ++ s).data = pre.data ++ s.data := rfl
  simp [goTrimPfx, hd, isPrefixOf_append_self, List.drop_left]

theorem find?_filter_bne (k0 k : String) (h : (k0 == k) = false) :
    ∀ hs : List (String × String),
      (hs.filter (fun p => p.1 != k0)).find? (fun p => p.1 == k)
        = hs.find? (fun p => p.1 == k) := by
  intro hs
  induction hs with
  | nil => rfl
  | cons p t ih =>
    by_cases hpk : (p.1 == k) = true
    · have hp0 : (p.1 != k0) = true := by
        have : p.1 = k := eq_of_beq hpk
        subst this
        simp [bne]
        intro hh
        subst hh
        simp at h
      simp [List.filter_cons, hp0, List.find?, hpk]
    · have hpk' : (p.1 == k) = false := by simpa using hpk
      by_cases hp0 : (p.1 != k0) = true
      · simp [List.filter_cons, hp0, List.find?, hpk', ih]
      · have hp0' : (p.1 != k0) = false := by simpa using hp0
        simp [List.filter_cons, hp0', List.find?, hpk', ih]

theorem assocGet_set_ne (hs : List (String × String)) (k0 v k : String)
    (h : (k0 == k) = false) : assocGet (assocSet hs k0 v) k = assocGet hs k := by
  simp [assocGet, assocSet, List.find?, h, find?_filter_bne k0 k h hs]

theorem dropWhile_slash_all (l : List Char) (h : '/' ∉ l) :
    l.dropWhile (fun c => c == '/') = l := by
  cases l with
  | nil => rfl
  | cons c t =>
    have hc : (c == '/') = false := by
      simp only [List.mem_cons] at h
      simp only [beq_eq_false_iff_ne, ne_eq]
      intro hh
      exact h (Or.inl hh.symm)
    simp [List.dropWhile_cons, hc]

theorem takeWhile_neq_slash_all (l : List Char) (h : '/' ∉ l) :
    l.takeWhile (fun c => c != '/') = l := by
  induction l with
  | nil => rfl
  | cons c t ih =>
    simp only [List.mem_cons] at h
    have hc : (c != '/') = true := by
      simp only [bne_iff_ne, ne_eq]
      intro hh
      exact h (Or.inl hh.symm)
    simp [List.takeWhile_cons, hc, ih (fun hm => h (Or.inr hm))]

theorem takeWhile_append_slash (a b : List Char) (h : '/' ∉ a) :
    (a ++ '/' :: b).takeWhile (fun c => c != '/') = a := by
  induction a with
  | nil => simp [List.takeWhile_cons]
  | cons c t ih =>
    simp only [List.mem_cons] at h
    have hc : (c != '/') = true := by
      simp only [bne_iff_ne, ne_eq]
      intro hh
      exact h (Or.inl hh.symm)
    simp [List.takeWhile_cons, hc, ih (fun hm => h (Or.inr hm))]

theorem goBaseD_core (m z : List Char) (hm : m ≠ []) (hs : '/' ∉ m)
    (hz : z = [] ∨ ∃ w, z = '/' :: w) : goBaseD (z.reverse ++ m) = m := by
  have hne : z.reverse ++ m ≠ [] := by
    intro hh
    exact hm (List.append_eq_nil.mp hh).2
  obtain ⟨c, t, hct⟩ : ∃ c t, m.reverse = c :: t := by
    cases hmr : m.reverse with
    | nil => exact absurd (by simpa using congrArg List.reverse hmr) hm
    | cons c t => exact ⟨c, t, rfl⟩
  have hsr : '/' ∉ m.reverse := by simpa using hs
  have hcns : (c == '/') = false := by
    rw [hct] at hsr
    simp only [List.mem_cons] at hsr
    simp only [beq_eq_false_iff_ne, ne_eq]
    intro hh
    exact hsr (Or.inl hh.symm)
  have hrev : (z.reverse ++ m).reverse = m.reverse ++ z := by
    simp
  have hdrop : (m.reverse ++ z).dropWhile (fun x => x == '/') = m.reverse ++ z := by
    rw [hct]
    simp [List.dropWhile_cons, hcns]
  have htake : (m.reverse ++ z).takeWhile (fun x => x != '/') = m.reverse := by
    rcases hz with rfl | ⟨w, rfl⟩
    · simp [takeWhile_neq_slash_all _ hsr]
    · exact takeWhile_append_slash _ _ hsr
  have hd1ne : m.reverse ++ z ≠ [] := by
    rw [hct]
    simp
  unfold goBaseD
  rw [if_neg hne, hrev, hdrop, if_neg hd1ne, htake, List.reverse_reverse]

theorem goBaseD_core_slash (m z : List Char) (hm : m ≠ []) (hs : '/' ∉ m)
    (hz : z = [] ∨ ∃ w, z = '/' :: w) : goBaseD (z.reverse ++ m ++ ['/']) = m := by
  have hne : z.reverse ++ m ++ ['/'] ≠ [] := by simp
  obtain ⟨c, t, hct⟩ : ∃ c t, m.reverse = c :: t := by
    cases hmr : m.reverse with
    | nil => exact absurd (by simpa using congrArg List.reverse hmr) hm
    | cons c t => exact ⟨c, t, rfl⟩
  have hsr : '/' ∉ m.reverse := by simpa using hs
  have hcns : (c == '/') = false := by
    rw [hct] at hsr
    simp only [List.mem_cons] at hsr
    simp only [beq_eq_false_iff_ne, ne_eq]
    intro hh
    exact hsr (Or.inl hh.symm)
  have hrev : (z.reverse ++ m ++ ['/']).reverse = '/' :: (m.reverse ++ z) := by
    simp
  have hdrop : ('/' :: (m.reverse ++ z)).dropWhile (fun x => x == '/')
      = m.reverse ++ z := by
    rw [List.dropWhile_cons]
    simp only [beq_self_eq_true, if_true]
    rw [hct]
    simp [List.dropWhile_cons, hcns]
  have htake : (m.reverse ++ z).takeWhile (fun x => x != '/') = m.reverse := by
    rcases hz with rfl | ⟨w, rfl⟩
    · simp [takeWhile_neq_slash_all _ hsr]
    · exact takeWhile_append_slash _ _ hsr
  have hd1ne : m.reverse ++ z ≠ [] := by
    rw [hct]
    simp
  unfold goBaseD
  rw [if_neg hne, hrev, hdrop, if_neg hd1ne, htake, List.reverse_reverse]

theorem goBase_mkKey (ftpPath : String) (f : FileInfo) (h1 : f.name.data ≠ [])
    (h2 : '/' ∉ f.name.data) : goBase (mkKey ftpPath f) = f.name := by
  have hslash : "/".data = ['/'] := rfl
  by_cases hfp : (ftpPath == ".") = true
  · by_cases hdir : f.isDir = true
    · have hk : mkKey ftpPath f = f.name ++ "/" := by simp [mkKey, hfp, hdir]
      rw [hk]
      unfold goBase
      have hd : (f.name ++ "/").data = ([] : List Char).reverse ++ f.name.data ++ ['/'] := by
        simp [String.data_append, hslash]
      rw [hd, goBaseD_core_slash f.name.data [] h1 h2 (Or.inl rfl)]
    · have hk : mkKey ftpPath f = f.name := by simp [mkKey, hfp, hdir]
      rw [hk]
      unfold goBase
      have hd : f.name.data = ([] : List Char).reverse ++ f.name.data := by simp
      rw [hd, goBaseD_core f.name.data [] h1 h2 (Or.inl rfl)]
  · by_cases hdir : f.isDir = true
    · have hk : mkKey ftpPath f = ftpPath ++ "/" ++ f.name ++ "/" := by simp [mkKey, hfp, hdir]
      rw [hk]
      unfold goBase
      have hd : (ftpPath ++ "/" ++ f.name ++ "/").data
          = ('/' :: ftpPath.data.reverse).reverse ++ f.name.data ++ ['/'] := by
        simp [String.data_append, hslash]
      rw [hd, goBaseD_core_slash f.name.data ('/' :: ftpPath.data.reverse) h1 h2
        (Or.inr ⟨ftpPath.data.reverse, rfl⟩)]
    · have hk : mkKey ftpPath f = ftpPath ++ "/" ++ f.name := by simp [mkKey, hfp, hdir]
      rw [hk]
      unfold goBase
      have hd : (ftpPath ++ "/" ++ f.name).data
          = ('/' :: ftpPath.data.reverse).reverse ++ f.name.data := by
        simp [String.data_append, hslash]
      rw [hd, goBaseD_core f.name.data ('/' :: ftpPath.data.reverse) h1 h2
        (Or.inr ⟨ftpPath.data.reverse, rfl⟩)]

theorem nonhidden_not_pseudo (n : String) (h : hiddenName n = false) :
    (n == "." || n == "..") = false := by
  cases h1 : (n == ".") with
  | true =>
    have hn : n = "." := eq_of_beq h1
    rw [hn] at h
    exact absurd h (by decide)
  | false =>
    cases h2 : (n == "..") with
    | true =>
      have hn : n = ".." := eq_of_beq h2
      rw [hn] at h
      exact absurd h (by decide)
    | false => simp [h1, h2]

theorem v2Step_inv (pfx delim ftpPath : String) (st : V2Acc) (f : FileInfo)
    (h1 : st.cpfxs.Nodup) (h2 : ∀ x ∈ st.cpfxs, x ∈ st.seen) :
    ((v2Step pfx delim ftpPath st f).cpfxs).Nodup ∧
    (∀ x ∈ (v2Step pfx delim ftpPath st f).cpfxs, x ∈ (v2Step pfx delim ftpPath st f).seen) := by
  cases hidx : idxOfSub delim.data (goTrimPfx (mkKey ftpPath f) pfx).data with
  | none =>
    simp only [v2Step, hidx]
    split
    · exact ⟨h1, h2⟩
    split
    · exact ⟨h1, h2⟩
    split
    · exact ⟨h1, h2⟩
    · exact ⟨h1, h2⟩
  | some i =>
    simp only [v2Step, hidx]
    split
    · exact ⟨h1, h2⟩
    split
    · exact ⟨h1, h2⟩
    split
    · split
      · exact ⟨h1, h2⟩
      · rename_i hnotseen
        constructor
        · rw [List.nodup_append]
          refine ⟨h1, List.nodup_singleton _, ?_⟩
          intro x hx hx1
          have hxcp : x ∈ [_] := hx1
          rw [List.mem_singleton] at hxcp
          subst hxcp
          exact hnotseen (h2 _ hx)
        · intro x hx
          rw [List.mem_append] at hx
          rcases hx with hx | hx
          · exact List.mem_append_left _ (h2 _ hx)
          · exact List.mem_append_right _ hx
    · exact ⟨h1, h2⟩

theorem v2fold_nodup (pfx delim ftpPath : String) (files : List FileInfo) :
    ∀ st : V2Acc, st.cpfxs.Nodup → (∀ x ∈ st.cpfxs, x ∈ st.seen) →
      ((files.foldl (v2Step pfx delim ftpPath) st).cpfxs).Nodup := by
  induction files with
  | nil =>
    intro st h1 _
    simpa using h1
  | cons f t ih =>
    intro st h1 h2
    rw [List.foldl_cons]
    exact ih _ (v2Step_inv pfx delim ftpPath st f h1 h2).1 (v2Step_inv pfx delim ftpPath st f h1 h2).2

theorem goSplitC_no_sep (sep : Char) (d : List Char) : ∀ c ∈ goSplitC sep d, sep ∉ c := by
  induction d with
  | nil =>
    intro c hc
    rw [goSplitC] at hc
    rcases List.mem_singleton.mp hc with rfl
    simp
  | cons a t ih =>
    intro c hc
    rw [goSplitC] at hc
    by_cases ha : a = sep
    · rw [if_pos ha] at hc
      rcases List.mem_cons.mp hc with rfl | hc
      · simp
      · exact ih c hc
    · rw [if_neg ha] at hc
      cases hsp : goSplitC sep t with
      | nil =>
        rw [hsp] at hc
        rcases List.mem_singleton.mp hc with rfl
        simp only [List.mem_singleton, List.mem_cons]
        rintro (rfl | hh)
        · exact ha rfl
        · simp at hh
      | cons p ps =>
        rw [hsp] at hc
        rcases List.mem_cons.mp hc with rfl | hc
        · have hp : sep ∉ p := ih p (hsp ▸ List.mem_cons_self p ps)
          simp only [List.mem_cons]
          rintro (rfl | hh)
          · exact ha rfl
          · exact hp hh
        · exact ih c (hsp ▸ List.mem_cons_of_mem p hc)

theorem interSlash_cons_cons (c c2 : List Char) (r : List (List Char)) :
    interSlash (c :: c2 :: r) = c ++ '/' :: interSlash (c2 :: r) := rfl

theorem interSlash_ne_nil (c : List Char) (rest : List (List Char)) (hc : c ≠ []) :
    interSlash (c :: rest) ≠ [] := by
  cases rest with
  | nil => exact hc
  | cons c2 r => simp [interSlash_cons_cons, hc]

theorem interSlash_head (c : List Char) (rest : List (List Char)) (hc : c ≠ []) :
    (interSlash (c :: rest)).head? = c.head? := by
  cases rest with
  | nil => rfl
  | cons c2 r =>
    rw [interSlash_cons_cons]
    cases c with
    | nil => exact absurd rfl hc
    | cons x xs => rfl

theorem goSplitC_no_slash (c : List Char) (h : '/' ∉ c) : goSplitC '/' c = [c] := by
  induction c with
  | nil => rfl
  | cons a c2 ih =>
    simp only [List.mem_cons] at h
    have ha : ¬(a = '/') := fun hh => h (Or.inl hh.symm)
    rw [goSplitC, if_neg ha, ih (fun hm => h (Or.inr hm))]

theorem goSplitC_append_slash (c t : List Char) (h : '/' ∉ c) :
    goSplitC '/' (c ++ '/' :: t) = c :: goSplitC '/' t := by
  induction c with
  | nil => simp [goSplitC]
  | cons a c2 ih =>
    simp only [List.mem_cons] at h
    have ha : ¬(a = '/') := fun hh => h (Or.inl hh.symm)
    rw [List.cons_append, goSplitC, if_neg ha, ih (fun hm => h (Or.inr hm))]

theorem goSplitC_interSlash (L : List (List Char)) (hne : L ≠ [])
    (h : ∀ c ∈ L, '/' ∉ c) : goSplitC '/' (interSlash L) = L := by
  induction L with
  | nil => exact absurd rfl hne
  | cons c rest ih =>
    cases rest with
    | nil => exact goSplitC_no_slash c (h c (List.mem_cons_self c []))
    | cons c2 r2 =>
      rw [interSlash_cons_cons,
          goSplitC_append_slash c _ (h c (List.mem_cons_self c (c2 :: r2))),
          ih (by simp) (fun x hx => h x (List.mem_cons_of_mem c hx))]

theorem cleanStep_dd_replicate (j : Nat) :
    cleanStep false (List.replicate j dd) dd = List.replicate (j + 1) dd := by
  cases j with
  | zero => rfl
  | succ j => rfl

theorem foldl_cleanStep_replicate (k : Nat) : ∀ j : Nat,
    List.foldl (cleanStep false) (List.replicate j dd) (List.replicate k dd)
      = List.replicate (j + k) dd := by
  induction k with
  | zero =>
    intro j
    simp
  | succ k ih =>
    intro j
    rw [List.replicate_succ, List.foldl_cons, cleanStep_dd_replicate j, ih (j + 1)]
    congr 1
    omega

theorem cleanStep_push (rooted : Bool) (acc : List (List Char)) (c : List Char)
    (h1 : c ≠ []) (h2 : c ≠ ['.']) (h3 : c ≠ dd) :
    cleanStep rooted acc c = c :: acc := by
  unfold cleanStep
  rw [if_neg (by rintro (h | h) <;> [exact h1 h; exact h2 h]), if_neg h3]

theorem foldl_cleanStep_push (l : List (List Char))
    (hl : ∀ c ∈ l, c ≠ [] ∧ c ≠ ['.'] ∧ c ≠ dd) :
    ∀ acc, List.foldl (cleanStep false) acc l = l.reverse ++ acc := by
  induction l with
  | nil =>
    intro acc
    simp
  | cons c t ih =>
    intro acc
    have hc := hl c (List.mem_cons_self c t)
    rw [List.foldl_cons, cleanStep_push false acc c hc.1 hc.2.1 hc.2.2,
        ih (fun x hx => hl x (List.mem_cons_of_mem c hx)) (c :: acc)]
    simp

theorem cleanStep_good_true (acc : List (List Char)) (c : List Char)
    (hseg : ∀ x ∈ acc, x ≠ [] ∧ x ≠ ['.'] ∧ '/' ∉ x) (hnd : dd ∉ acc) (hc : '/' ∉ c) :
    (∀ x ∈ cleanStep true acc c, x ≠ [] ∧ x ≠ ['.'] ∧ '/' ∉ x) ∧
    dd ∉ cleanStep true acc c := by
  by_cases hskip : c = [] ∨ c = ['.']
  · unfold cleanStep
    rw [if_pos hskip]
    exact ⟨hseg, hnd⟩
  by_cases hdd : c = dd
  · subst hdd
    cases acc with
    | nil =>
      unfold cleanStep
      rw [if_neg hskip, if_pos rfl]
      simp
    | cons top rest =>
      have htop : ¬(top = dd) := fun hh => hnd (hh ▸ List.mem_cons_self top rest)
      unfold cleanStep
      rw [if_neg hskip, if_pos rfl]
      show (∀ x ∈ (if top = dd then dd :: top :: rest else rest), _) ∧
        dd ∉ (if top = dd then dd :: top :: rest else rest)
      rw [if_neg htop]
      exact ⟨fun x hx => hseg x (List.mem_cons_of_mem top hx),
             fun hx => hnd (List.mem_cons_of_mem top hx)⟩
  · have h1 : c ≠ [] := fun hh => hskip (Or.inl hh)
    have h2 : c ≠ ['.'] := fun hh => hskip (Or.inr hh)
    rw [cleanStep_push true acc c h1 h2 hdd]
    refine ⟨?_, ?_⟩
    · intro x hx
      rcases List.mem_cons.mp hx with rfl | hx
      · exact ⟨h1, h2, hc⟩
      · exact hseg x hx
    · intro hx
      rcases List.mem_cons.mp hx with hcd | hx
      · exact hdd hcd.symm
      · exact hnd hx

theorem cleanStep_good_false (acc : List (List Char)) (c : List Char)
    (hacc : GoodAcc acc) (hc : '/' ∉ c) : GoodAcc (cleanStep false acc c) := by
  obtain ⟨hseg, front, k, hdec, hfront⟩ := hacc
  by_cases hskip : c = [] ∨ c = ['.']
  · unfold cleanStep
    rw [if_pos hskip]
    exact ⟨hseg, front, k, hdec, hfront⟩
  by_cases hdd : c = dd
  · subst hdd
    cases acc with
    | nil =>
      unfold cleanStep
      rw [if_neg hskip, if_pos rfl]
      refine ⟨?_, [], 1, by simp, by simp⟩
      intro x hx
      rcases List.mem_singleton.mp hx with rfl
      exact ⟨by simp [dd], by simp [dd], by simp [dd]⟩
    | cons top rest =>
      by_cases htop : top = dd
      · subst htop
        have hfront_nil : front = [] := by
          cases front with
          | nil => rfl
          | cons f0 fr =>
            rw [List.cons_append] at hdec
            injection hdec with hh _
            exact absurd (hh ▸ List.mem_cons_self f0 fr) hfront
        subst hfront_nil
        rw [List.nil_append] at hdec
        unfold cleanStep
        rw [if_neg hskip, if_pos rfl]
        show GoodAcc (if dd = dd then dd :: dd :: rest else rest)
        rw [if_pos rfl]
        refine ⟨?_, [], k + 1, ?_, by simp⟩
        · intro x hx
          rcases List.mem_cons.mp hx with rfl | hx
          · exact ⟨by simp [dd], by simp [dd], by simp [dd]⟩
          · exact hseg x hx
        · rw [List.nil_append, List.replicate_succ, ← hdec]
      · have hfront_cons : ∃ fr, front = top :: fr := by
          cases front with
          | nil =>
            rw [List.nil_append] at hdec
            cases k with
            | zero => simp at hdec
            | succ k =>
              rw [List.replicate_succ] at hdec
              injection hdec with hh _
              exact absurd hh htop
          | cons f0 fr =>
            rw [List.cons_append] at hdec
            injection hdec with hh _
            exact ⟨fr, by rw [hh]⟩
        obtain ⟨fr, rfl⟩ := hfront_cons
        rw [List.cons_append] at hdec
        injection hdec with _ hrest
        unfold cleanStep
        rw [if_neg hskip, if_pos rfl]
        show GoodAcc (if top = dd then dd :: top :: rest else rest)
        rw [if_neg htop]
        exact ⟨fun x hx => hseg x (List.mem_cons_of_mem top hx), fr, k, hrest,
               fun hx => hfront (List.mem_cons_of_mem top hx)⟩
  · have h1 : c ≠ [] := fun hh => hskip (Or.inl hh)
    have h2 : c ≠ ['.'] := fun hh => hskip (Or.inr hh)
    rw [cleanStep_push false acc c h1 h2 hdd]
    refine ⟨?_, c :: front, k, ?_, ?_⟩
    · intro x hx
      rcases List.mem_cons.mp hx with rfl | hx
      · exact ⟨h1, h2, hc⟩
      · exact hseg x hx
    · rw [hdec, List.cons_append]
    · intro hx
      rcases List.mem_cons.mp hx with hcd | hx
      · exact hdd hcd.symm
      · exact hfront hx

theorem foldl_cleanStep_good_true (comps : List (List Char))
    (hcomps : ∀ c ∈ comps, '/' ∉ c) :
    ∀ acc, (∀ x ∈ acc, x ≠ [] ∧ x ≠ ['.'] ∧ '/' ∉ x) → dd ∉ acc →
      (∀ x ∈ comps.foldl (cleanStep true) acc, x ≠ [] ∧ x ≠ ['.'] ∧ '/' ∉ x) ∧
      dd ∉ comps.foldl (cleanStep true) acc := by
  induction comps with
  | nil =>
    intro acc hseg hnd
    exact ⟨hseg, hnd⟩
  | cons c t ih =>
    intro acc hseg hnd
    rw [List.foldl_cons]
    have hstep := cleanStep_good_true acc c hseg hnd (hcomps c (List.mem_cons_self c t))
    exact ih (fun x hx => hcomps x (List.mem_cons_of_mem c hx)) _ hstep.1 hstep.2

theorem foldl_cleanStep_good_false (comps : List (List Char))
    (hcomps : ∀ c ∈ comps, '/' ∉ c) :
    ∀ acc, GoodAcc acc → GoodAcc (comps.foldl (cleanStep false) acc) := by
  induction comps with
  | nil =>
    intro acc hacc
    exact hacc
  | cons c t ih =>
    intro acc hacc
    rw [List.foldl_cons]
    exact ih (fun x hx => hcomps x (List.mem_cons_of_mem c hx)) _
      (cleanStep_good_false acc c hacc (hcomps c (List.mem_cons_self c t)))

theorem cleanStack_props (rooted : Bool) (d : List Char) :
    (∀ x ∈ cleanStack rooted (goSplitC '/' d), x ≠ [] ∧ x ≠ ['.'] ∧ '/' ∉ x) ∧
    ∃ k tail, cleanStack rooted (goSplitC '/' d) = List.replicate k dd ++ tail ∧ dd ∉ tail := by
  cases rooted with
  | true =>
    have h := foldl_cleanStep_good_true (goSplitC '/' d) (goSplitC_no_sep '/' d) []
      (by simp) (by simp)
    unfold cleanStack
    refine ⟨?_, 0, (List.foldl (cleanStep true) [] (goSplitC '/' d)).reverse, by simp, ?_⟩
    · intro x hx
      exact h.1 x (List.mem_reverse.mp hx)
    · intro hx
      exact h.2 (List.mem_reverse.mp hx)
  | false =>
    have h := foldl_cleanStep_good_false (goSplitC '/' d) (goSplitC_no_sep '/' d) []
      ⟨by simp, [], 0, by simp, by simp⟩
    obtain ⟨hseg, front, k, hdec, hfront⟩ := h
    unfold cleanStack
    refine ⟨?_, k, front.reverse, ?_, ?_⟩
    · intro x hx
      exact hseg x (List.mem_reverse.mp hx)
    · rw [hdec, List.reverse_append, List.reverse_replicate]
    · intro hx
      exact hfront (List.mem_reverse.mp hx)

theorem cleanD_rooted (d : List Char) (hd : d ≠ []) (hr : d.head? = some '/') :
    cleanD d = '/' :: interSlash (cleanStack true (goSplitC '/' d)) := by
  unfold cleanD
  rw [if_neg hd]
  simp [hr]

theorem cleanD_nonrooted (d : List Char) (hd : d ≠ []) (hr : d.head? ≠ some '/') :
    cleanD d = (if interSlash (cleanStack false (goSplitC '/' d)) = [] then ['.']
                else interSlash (cleanStack false (goSplitC '/' d))) := by
  unfold cleanD
  rw [if_neg hd]
  simp [decide_eq_false hr]

theorem goTrimPfx_slash_cons (t : List Char) : goTrimPfx ⟨'/' :: t⟩ "/" = ⟨t⟩ := by
  unfold goTrimPfx
  have h1 : "/".data.isPrefixOf (String.mk ('/' :: t)).data = true := by
    show ['/'].isPrefixOf ('/' :: t) = true
    simp [List.isPrefixOf]
  simp only [h1, if_true]
  rfl

theorem goTrimPfx_head_ne (d : List Char) (h : d.head? ≠ some '/') :
    goTrimPfx ⟨d⟩ "/" = ⟨d⟩ := by
  unfold goTrimPfx
  have h1 : "/".data.isPrefixOf (String.mk d).data = false := by
    show ['/'].isPrefixOf d = false
    cases d with
    | nil => rfl
    | cons x xs =>
      have hx : ('/' == x) = false := by
        simp only [beq_eq_false_iff_ne, ne_eq]
        intro hh
        exact h (by rw [← hh]; rfl)
      simp [List.isPrefixOf, hx]
  simp [h1]

theorem interSlash_head_ne_slash (st : List (List Char))
    (hseg : ∀ c ∈ st, c ≠ [] ∧ c ≠ ['.'] ∧ '/' ∉ c) :
    (interSlash st).head? ≠ some '/' := by
  cases st with
  | nil => simp [interSlash]
  | cons c rest =>
    have hc := hseg c (List.mem_cons_self c rest)
    rw [interSlash_head c rest hc.1]
    cases c with
    | nil => exact absurd rfl hc.1
    | cons ch ct =>
      have hch : ch ≠ '/' := fun hh => hc.2.2 (hh ▸ List.mem_cons_self ch ct)
      simp [hch]

theorem normalize_interSlash_fixed (stack : List (List Char)) (hne : stack ≠ [])
    (hseg : ∀ c ∈ stack, c ≠ [] ∧ c ≠ ['.'] ∧ '/' ∉ c)
    (hdec : ∃ k tail, stack = List.replicate k dd ++ tail ∧ dd ∉ tail) :
    normalize ⟨interSlash stack⟩ = ⟨interSlash stack⟩ := by
  obtain ⟨k, tail, hst, htail⟩ := hdec
  obtain ⟨c, rest, rfl⟩ : ∃ c rest, stack = c :: rest := by
    cases stack with
    | nil => exact absurd rfl hne
    | cons c rest => exact ⟨c, rest, rfl⟩
  have hc := hseg c (List.mem_cons_self c rest)
  have hbody_ne : interSlash (c :: rest) ≠ [] := interSlash_ne_nil c rest hc.1
  have hhead : (interSlash (c :: rest)).head? ≠ some '/' := interSlash_head_ne_slash _ hseg
  have hsplit : goSplitC '/' (interSlash (c :: rest)) = c :: rest :=
    goSplitC_interSlash _ (by simp) (fun x hx => (hseg x hx).2.2)
  have hstack2 : cleanStack false (goSplitC '/' (interSlash (c :: rest))) = c :: rest := by
    rw [hsplit]
    unfold cleanStack
    rw [hst, List.foldl_append]
    have e1 : List.foldl (cleanStep false) [] (List.replicate k dd) = List.replicate k dd := by
      simpa using foldl_cleanStep_replicate k 0
    have htailgood : ∀ x ∈ tail, x ≠ [] ∧ x ≠ ['.'] ∧ x ≠ dd := by
      intro x hx
      have hx2 := hseg x (hst ▸ List.mem_append_right (List.replicate k dd) hx)
      exact ⟨hx2.1, hx2.2.1, fun hh => htail (hh ▸ hx)⟩
    rw [e1, foldl_cleanStep_push tail htailgood (List.replicate k dd),
        List.reverse_append, List.reverse_reverse, List.reverse_replicate, ← hst]
  have hclean : cleanD (interSlash (c :: rest)) = interSlash (c :: rest) := by
    rw [cleanD_nonrooted (interSlash (c :: rest)) hbody_ne hhead, hstack2, if_neg hbody_ne]
  show goTrimPfx (clean ⟨interSlash (c :: rest)⟩) "/" = ⟨interSlash (c :: rest)⟩
  unfold clean
  have hqdata : (String.mk (interSlash (c :: rest))).data = interSlash (c :: rest) := rfl
  rw [hqdata, hclean]
  exact goTrimPfx_head_ne _ hhead

theorem v2Step_contents_sub (pfx delim ftpPath : String) (st : V2Acc) (f : FileInfo) :
    (v2Step pfx delim ftpPath st f).contents = st.contents ∨
    ((v2Step pfx delim ftpPath st f).contents = st.contents ++ [mkObj (mkKey ftpPath f) f] ∧
      hiddenName f.name = false) := by
  cases hidx : idxOfSub delim.data (goTrimPfx (mkKey ftpPath f) pfx).data with
  | none =>
    simp only [v2Step, hidx]
    split
    · exact Or.inl rfl
    split
    · exact Or.inl rfl
    rename_i hh hps
    split
    · exact Or.inr ⟨rfl, by simpa using hh⟩
    · exact Or.inr ⟨rfl, by simpa using hh⟩
  | some i =>
    simp only [v2Step, hidx]
    split
    · exact Or.inl rfl
    split
    · exact Or.inl rfl
    rename_i hh hps
    split
    · split
      · exact Or.inl rfl
      · exact Or.inl rfl
    · exact Or.inr ⟨rfl, by simpa using hh⟩

theorem v1Step_contents_sub (ftpPath : String) (st : List S3Object) (f : FileInfo) :
    v1Step ftpPath st f = st ∨
    (v1Step ftpPath st f = st ++ [mkObj (mkKey ftpPath f) f] ∧
      hiddenName f.name = false) := by
  unfold v1Step
  split
  · exact Or.inl rfl
  split
  · exact Or.inl rfl
  rename_i hh hps
  exact Or.inr ⟨rfl, by simpa using hh⟩

theorem v2fold_contents_nonhidden (pfx delim ftpPath : String) (files : List FileInfo)
    (hn : ∀ g ∈ files, g.name.data ≠ [] ∧ '/' ∉ g.name.data) :
    ∀ st : V2Acc, (∀ o ∈ st.contents, hiddenName (goBase o.key) = false) →
      ∀ o ∈ (files.foldl (v2Step pfx delim ftpPath) st).contents,
        hiddenName (goBase o.key) = false := by
  induction files with
  | nil =>
    intro st hst o ho
    exact hst o (by simpa using ho)
  | cons f t ih =>
    intro st hst
    rw [List.foldl_cons]
    refine ih (fun g hg => hn g (List.mem_cons_of_mem f hg)) _ ?_
    intro o ho
    rcases v2Step_contents_sub pfx delim ftpPath st f with hcase | ⟨hcase, hhid⟩
    · rw [hcase] at ho
      exact hst o ho
    · rw [hcase, List.mem_append] at ho
      rcases ho with ho | ho
      · exact hst o ho
      · rw [List.mem_singleton] at ho
        subst ho
        have hg := hn f (List.mem_cons_self f t)
        show hiddenName (goBase (mkKey ftpPath f)) = false
        rw [goBase_mkKey ftpPath f hg.1 hg.2]
        exact hhid

theorem v1fold_contents_nonhidden (ftpPath : String) (files : List FileInfo)
    (hn : ∀ g ∈ files, g.name.data ≠ [] ∧ '/' ∉ g.name.data) :
    ∀ st : List S3Object, (∀ o ∈ st, hiddenName (goBase o.key) = false) →
      ∀ o ∈ files.foldl (v1Step ftpPath) st, hiddenName (goBase o.key) = false := by
  induction files with
  | nil =>
    intro st hst o ho
    exact hst o (by simpa using ho)
  | cons f t ih =>
    intro st hst
    rw [List.foldl_cons]
    refine ih (fun g hg => hn g (List.mem_cons_of_mem f hg)) _ ?_
    intro o ho
    rcases v1Step_contents_sub ftpPath st f with hcase | ⟨hcase, hhid⟩
    · rw [hcase] at ho
      exact hst o ho
    · rw [hcase, List.mem_append] at ho
      rcases ho with ho | ho
      · exact hst o ho
      · rw [List.mem_singleton] at ho
        subst ho
        have hg := hn f (List.mem_cons_self f t)
        show hiddenName (goBase (mkKey ftpPath f)) = false
        rw [goBase_mkKey ftpPath f hg.1 hg.2]
        exact hhid

/-! ### Claim theorems -/

/-- Claim C1 (code bug): the middleware never compares the presented
signature with the recomputed one.  For every signature function and
timestamp, the request `reqBadSig` — well-formed header, stored access key,
a presented signature that differs from the one `sigFun` recomputes — is
forwarded to the wrapped handler instead of being rejected with 401. -/
theorem claim_C1_signature_never_compared :
    (∀ signAuth amzDate, (serveAuth storeA signAuth amzDate reqBadSig).isForwarded = true) ∧
    ((assocGet reqBadSig.headers "Authorization" == sigFun ⟨"AKID", "SECRET"⟩ reqBadSig)
      = false) := by
  constructor
  · intro signAuth amzDate
    rfl
  · rfl

/-- Claim C2 (code bug): a non-empty malformed Authorization header whose
payload lacks `"="` (here `"AWS4-HMAC-SHA256 garbage"`) drives
`strings.Split(credStr, "=")[1]` into an out-of-bounds index instead of a
401 rejection, for every signature function and timestamp. -/
theorem claim_C2_malformed_header_panics :
    ∀ signAuth amzDate, serveAuth storeA signAuth amzDate reqNoEq = .indexPanic :=
  fun _ _ => rfl

/-- Claim C3, counterexample: the request forwarded for `reqBadSig` does not
carry the incoming Authorization header — the signer overwrote it — so the
request is not forwarded unchanged. -/
theorem claim_C3_cex_auth_header_rewritten :
    (serveAuth storeA sigFun "20250101T000000Z" reqBadSig).isForwarded = true ∧
    ((assocGet (serveAuth storeA sigFun "20250101T000000Z" reqBadSig).fwdReq.headers
        "Authorization" == assocGet reqBadSig.headers "Authorization") = false) :=
  ⟨rfl, rfl⟩

/-- Claim C3, amended: a request that passes the middleware is forwarded
with its method, path, query and body unchanged and every header other than
`Authorization` and `X-Amz-Date` unchanged; those two are overwritten by
the re-signing step (on the pass-through branches the request is forwarded
fully unchanged). -/
theorem claim_C3_forward_frame (store : List Credentials)
    (signAuth : Credentials → Request → String) (amzDate : String) (r out : Request)
    (h : serveAuth store signAuth amzDate r = .forwarded out) :
    out.method = r.method ∧ out.path = r.path ∧ out.query = r.query ∧ out.body = r.body ∧
    ∀ k, (k == "Authorization") = false → (k == "X-Amz-Date") = false →
      assocGet out.headers k = assocGet r.headers k := by
  unfold serveAuth at h
  split at h
  · cases h
    exact ⟨rfl, rfl, rfl, rfl, fun k _ _ => rfl⟩
  · split at h
    · cases h
    · split at h
      · split at h
        · split at h
          · split at h
            · split at h
              · cases h
                refine ⟨rfl, rfl, rfl, rfl, fun k hk1 hk2 => ?_⟩
                have h1 : ("Authorization" == k) = false := by
                  cases hb : ("Authorization" == k) with
                  | false => rfl
                  | true =>
                    have : "Authorization" = k := eq_of_beq hb
                    subst this
                    simp at hk1
                have h2 : ("X-Amz-Date" == k) = false := by
                  cases hb : ("X-Amz-Date" == k) with
                  | false => rfl
                  | true =>
                    have : "X-Amz-Date" = k := eq_of_beq hb
                    subst this
                    simp at hk2
                simp [signHTTP, assocGet_set_ne _ _ _ _ h1, assocGet_set_ne _ _ _ _ h2]
              · cases h
            · cases h
          · cases h
        · cases h
      · cases h

/-- Claim C3 witness: the frame property at the concrete forwarded request
of `reqBadSig`. -/
theorem claim_C3_forward_frame_witness :
    reqSigned.method = reqBadSig.method ∧ reqSigned.path = reqBadSig.path ∧
    reqSigned.query = reqBadSig.query ∧ reqSigned.body = reqBadSig.body ∧
    ∀ k, (k == "Authorization") = false → (k == "X-Amz-Date") = false →
      assocGet reqSigned.headers k = assocGet reqBadSig.headers k :=
  claim_C3_forward_frame storeA sigFun "20250101T000000Z" reqBadSig reqSigned rfl

/-- Claim C4, counterexample.  First violation (`FTPClient.List`): a
transient first failure (`"broken pipe"`), a successful reconnect and a
second failure `"boom"` surface as
`"failed to list directory after reconnect: boom"` — wrapped, not
unmodified.  Second violation (directory creation inside `FTPClient.Put`):
on the script `stPutCex`, one `Put` of `a/b/f.txt` performs **three**
reconnect attempts — one inside each `createDirectories` run plus the
`Put`-level one between them — and surfaces the wrapped
`"failed to create directories after reconnect: broken pipe"`, so neither
"exactly one reconnect" nor "surfaced unmodified" holds there. -/
theorem claim_C4_cex_wrapped_and_multi_reconnect :
    (listRetry (Except.error "broken pipe" : Except String Nat) (.error "boom") none).result
      = .error "failed to list directory after reconnect: boom" ∧
    (("failed to list directory after reconnect: boom" == "boom") = false) ∧
    (putOpS "a/b/f.txt" stPutCex).1
      = some "failed to create directories after reconnect: broken pipe" ∧
    (putOpS "a/b/f.txt" stPutCex).2.reconnects = 3 ∧
    (("failed to create directories after reconnect: broken pipe" == "broken pipe")
      = false) ∧
    (((3 : Nat) == 1) = false) :=
  ⟨rfl, rfl, rfl, rfl, rfl, rfl⟩

/-- Claim C4, amended.  For list, get, the store phase of put, and delete:
a non-transient first failure is surfaced immediately with no reconnect and
no retry (raw for get/put-store/delete, wrapped with the fixed
`"failed to list directory: "` text for list); a transient first failure
triggers exactly one reconnect attempt; when the reconnect fails no retry
happens and the original error is surfaced (same wrapping), and when the
reconnect succeeds the operation is retried exactly once, a second failure
being surfaced unmodified for get/put-store/delete and wrapped with
`"failed to list directory after reconnect: "` for list.  The directory
creation phase of put does **not** keep a one-reconnect budget: each
`createDirectories` segment runs its own one-shot reconnect-and-retry, and
`Put` layers a further reconnect-and-full-rerun around the whole walk — so
one put can perform several reconnect attempts (three in the
counterexample) — and the directory-creation failures `Put` surfaces are
wrapped with `"failed to create directories: "` or
`"failed to create directories after reconnect: "`. -/
theorem claim_C4_retry_policy (α : Type) (e e2 : String) (s : Except String α)
    (rc : Option String) :
    (isTransientErr e = false →
      listRetry (Except.error e) s rc
        = ⟨.error ("failed to list directory: " ++ e), 0, 0⟩ ∧
      getRetry (Except.error e) s rc = ⟨.error e, 0, 0⟩) ∧
    (isTransientErr e = true →
      (listRetry (Except.error e) s rc).reconnects = 1 ∧
      (getRetry (Except.error e) s rc).reconnects = 1 ∧
      (∀ re, rc = some re →
        (listRetry (Except.error e) s rc).retries = 0 ∧
        (getRetry (Except.error e) s rc).retries = 0 ∧
        (listRetry (Except.error e) s rc).result
          = .error ("failed to list directory: " ++ e) ∧
        (getRetry (Except.error e) s rc).result = .error e) ∧
      (rc = none →
        (listRetry (Except.error e) s rc).retries = 1 ∧
        (getRetry (Except.error e) s rc).retries = 1 ∧
        (s = .error e2 →
          (listRetry (Except.error e) s rc).result
            = .error ("failed to list directory after reconnect: " ++ e2) ∧
          (getRetry (Except.error e) s rc).result = .error e2))) ∧
    (∀ (q : String) (st : FTPState),
      (goDir (normalize q) == ".") = false →
      (∀ st1, createDirectoriesS (goDir (normalize q)) st = (none, st1) →
        putOpS q st = storRetryS st1) ∧
      (∀ st1 derr, createDirectoriesS (goDir (normalize q)) st = (some derr, st1) →
        (isTransientErr derr = false →
          putOpS q st = (some ("failed to create directories: " ++ derr), st1)) ∧
        (isTransientErr derr = true →
          (∀ re st2, popReconnect st1 = (some re, st2) →
            putOpS q st
              = (some ("failed to create directories: " ++ derr),
                 { st2 with reconnects := st2.reconnects + 1 })) ∧
          (∀ st2, popReconnect st1 = (none, st2) →
            (∀ derr2 st3,
              createDirectoriesS (goDir (normalize q))
                  { st2 with reconnects := st2.reconnects + 1 } = (some derr2, st3) →
              putOpS q st
                = (some ("failed to create directories after reconnect: " ++ derr2),
                   st3)) ∧
            (∀ st3,
              createDirectoriesS (goDir (normalize q))
                  { st2 with reconnects := st2.reconnects + 1 } = (none, st3) →
              putOpS q st = storRetryS st3))))) := by
  refine ⟨?_, ?_, ?_⟩
  · intro h
    simp [listRetry, getRetry, h]
  · intro h
    refine ⟨?_, ?_, ?_, ?_⟩
    · cases rc <;> cases s <;> simp [listRetry, h]
    · cases rc <;> cases s <;> simp [getRetry, h]
    · rintro re rfl
      cases s <;> simp [listRetry, getRetry, h]
    · rintro rfl
      refine ⟨?_, ?_, ?_⟩
      · cases s <;> simp [listRetry, h]
      · cases s <;> simp [getRetry, h]
      · rintro rfl
        simp [listRetry, getRetry, h]
  · intro q st hdir
    constructor
    · intro st1 hcd
      simp [putOpS, hdir, hcd]
    · intro st1 derr hcd
      constructor
      · intro htr
        simp [putOpS, hdir, hcd, handleConnErrS, htr]
      · intro htr
        constructor
        · intro re st2 hpop
          simp [putOpS, hdir, hcd, handleConnErrS, htr, hpop]
        · intro st2 hpop
          constructor
          · intro derr2 st3 hcd2
            simp [putOpS, hdir, hcd, handleConnErrS, htr, hpop, hcd2]
          · intro st3 hcd2
            simp [putOpS, hdir, hcd, handleConnErrS, htr, hpop, hcd2]

/-- Claim C5, counterexample: normalization is not idempotent at `"/"` —
`normalize "/" = ""` but `normalize "" = "."`. -/
theorem claim_C5_cex_normalize_root :
    normalize "/" = "" ∧ normalize (normalize "/") = "." ∧
    ((normalize (normalize "/") == normalize "/") = false) :=
  ⟨rfl, rfl, rfl⟩

/-- Claim C5, amended: `normalize p` never begins with a separator, and
normalization is idempotent at every `p` whose normalized form is non-empty
(the sole exception being the paths that `Clean` maps to `"/"`, where
`normalize p = ""` re-normalizes to `"."`). -/
theorem claim_C5_normalize_props (p : String) :
    (normalize p).data.head? ≠ some '/' ∧
    (normalize p ≠ "" → normalize (normalize p) = normalize p) := by
  by_cases hd : p.data = []
  · have hp : p = "" := String.ext (by rw [hd])
    rw [hp]
    exact ⟨by decide, fun _ => by decide⟩
  · by_cases hr : p.data.head? = some '/'
    · obtain ⟨hsegS, k, tail, hstS, htailS⟩ := cleanStack_props true p.data
      have hnorm : normalize p = ⟨interSlash (cleanStack true (goSplitC '/' p.data))⟩ := by
        show goTrimPfx (clean p) "/" = _
        unfold clean
        rw [cleanD_rooted p.data hd hr]
        exact goTrimPfx_slash_cons _
      constructor
      · rw [hnorm]
        exact interSlash_head_ne_slash _ hsegS
      · intro hne
        rw [hnorm] at hne ⊢
        have hstne : cleanStack true (goSplitC '/' p.data) ≠ [] := by
          intro hh
          rw [hh] at hne
          exact hne rfl
        exact normalize_interSlash_fixed _ hstne hsegS ⟨k, tail, hstS, htailS⟩
    · obtain ⟨hsegS, k, tail, hstS, htailS⟩ := cleanStack_props false p.data
      by_cases hb : interSlash (cleanStack false (goSplitC '/' p.data)) = []
      · have hnorm : normalize p = "." := by
          show goTrimPfx (clean p) "/" = _
          unfold clean
          rw [cleanD_nonrooted p.data hd hr, if_pos hb]
          rfl
        rw [hnorm]
        exact ⟨by decide, fun _ => by decide⟩
      · have hnorm : normalize p = ⟨interSlash (cleanStack false (goSplitC '/' p.data))⟩ := by
          show goTrimPfx (clean p) "/" = _
          unfold clean
          rw [cleanD_nonrooted p.data hd hr, if_neg hb]
          exact goTrimPfx_head_ne _ (interSlash_head_ne_slash _ hsegS)
        constructor
        · rw [hnorm]
          exact interSlash_head_ne_slash _ hsegS
        · intro hne
          rw [hnorm]
          have hstne : cleanStack false (goSplitC '/' p.data) ≠ [] := by
            intro hh
            rw [hh] at hb
            exact hb rfl
          exact normalize_interSlash_fixed _ hstne hsegS ⟨k, tail, hstS, htailS⟩

/-- Claim C6: a V2 listing whose backend listing fails with an error
carrying the FTP not-found code 550 produces a successful (200) response
whose payload has `KeyCount = 0`, no contents and no common prefixes. -/
theorem claim_C6_missing_dir_empty_listing (b : Backend) (r : Request) (e : String)
    (hl : b.list (resolveFtpPath (assocGet r.query "prefix")) = .error e)
    (h550 : goContains e "550" = true) :
    (handleListObjectsV2 b r).status = 200 ∧
    (handleListObjectsV2 b r).v2.map (fun v => v.keyCount) = some 0 ∧
    (handleListObjectsV2 b r).v2.map (fun v => v.contents) = some [] ∧
    (handleListObjectsV2 b r).v2.map (fun v => v.commonPfxs) = some [] := by
  simp [handleListObjectsV2, hl, h550]

/-- Claim C6 witness: the empty-listing response at a concrete backend whose
listing of `a` fails with a 550 message. -/
theorem claim_C6_missing_dir_empty_listing_witness :
    (handleListObjectsV2 bMiss rEx).status = 200 ∧
    (handleListObjectsV2 bMiss rEx).v2.map (fun v => v.keyCount) = some 0 ∧
    (handleListObjectsV2 bMiss rEx).v2.map (fun v => v.contents) = some [] ∧
    (handleListObjectsV2 bMiss rEx).v2.map (fun v => v.commonPfxs) = some [] :=
  claim_C6_missing_dir_empty_listing bMiss rEx
    "failed to list directory: 550 No such file or directory" rfl rfl

/-- Claim C8: a DELETE on `/default/<key>` answers 204 with no body when the
backend delete succeeds, and 404 with a body naming the requested key when
the backend delete fails with an error carrying the not-found code 550. -/
theorem claim_C8_delete_response (b : Backend) (key : String)
    (hk1 : (key == ".") = false) (hk2 : (key == "") = false) :
    objectPath ("/default/" ++ key) = key ∧
    (b.del key = none →
      handleDelete b ⟨"DELETE", "/default/" ++ key, [], [], ""⟩
        = { status := 204, body := "", headers := [], ops := ["dele " ++ key] }) ∧
    (∀ e, b.del key = some e → goContains e "550" = true →
      handleDelete b ⟨"DELETE", "/default/" ++ key, [], [], ""⟩
        = { status := 404, body := "Key \"" ++ key ++ "\" does not exist\n", headers := [],
            ops := ["dele " ++ key] }) := by
  have hpath : objectPath ("/default/" ++ key) = key := by
    simp [objectPath, goTrimPfx_append, hk1, hk2]
  refine ⟨hpath, ?_, ?_⟩
  · intro hdel
    simp [handleDelete, hpath, hdel]
  · intro e hdel h550
    simp [handleDelete, hpath, hdel, h550]

/-- Claim C8 witness: the 204 and 404 responses at concrete keys on the
backend `bDel`. -/
theorem claim_C8_delete_response_witness :
    (objectPath ("/default/" ++ "a/b.txt") = "a/b.txt" ∧
      (bDel.del "a/b.txt" = none →
        handleDelete bDel ⟨"DELETE", "/default/" ++ "a/b.txt", [], [], ""⟩
          = { status := 204, body := "", headers := [], ops := ["dele " ++ "a/b.txt"] })) ∧
    (bDel.del "gone.txt" = some "550 gone.txt: No such file or directory" →
      goContains "550 gone.txt: No such file or directory" "550" = true →
      handleDelete bDel ⟨"DELETE", "/default/" ++ "gone.txt", [], [], ""⟩
        = { status := 404, body := "Key \"" ++ "gone.txt" ++ "\" does not exist\n",
            headers := [], ops := ["dele " ++ "gone.txt"] }) :=
  ⟨⟨(claim_C8_delete_response bDel "a/b.txt" rfl rfl).1,
    (claim_C8_delete_response bDel "a/b.txt" rfl rfl).2.1⟩,
   (claim_C8_delete_response bDel "gone.txt" rfl rfl).2.2
     "550 gone.txt: No such file or directory"⟩

/-- Claim C7: with a non-empty delimiter, every non-hidden entry is
classified exactly one way — when the prefix-stripped candidate key `rest`
contains the delimiter at first index `i` the entry contributes only the
common prefix `prefix ++ rest[:i+1]` (and no content entry), inserted only
when not already present, and otherwise it contributes only a content
entry; the emitted common-prefix list never holds duplicates; and on the
backend holding `a/x.txt` and `a/sub/y.txt`, listing with `prefix=a/`,
`delimiter=/` yields contents `[a/x.txt]` and common prefixes
`[a/sub/]`. -/
theorem claim_C7_delimiter_classification (pfx delim ftpPath : String) (st : V2Acc)
    (f : FileInfo) (files : List FileInfo) :
    ((delim == "") = false → hiddenName f.name = false →
      (∀ i, idxOfSub delim.data (goTrimPfx (mkKey ftpPath f) pfx).data = some i →
        (v2Step pfx delim ftpPath st f).contents = st.contents ∧
        (v2Step pfx delim ftpPath st f).cpfxs =
          (if (pfx ++ (⟨(goTrimPfx (mkKey ftpPath f) pfx).data.take (i + 1)⟩ : String))
               ∈ st.seen
           then st.cpfxs
           else st.cpfxs
             ++ [pfx ++ (⟨(goTrimPfx (mkKey ftpPath f) pfx).data.take (i + 1)⟩ : String)])) ∧
      (idxOfSub delim.data (goTrimPfx (mkKey ftpPath f) pfx).data = none →
        (v2Step pfx delim ftpPath st f).cpfxs = st.cpfxs ∧
        (v2Step pfx delim ftpPath st f).contents
          = st.contents ++ [mkObj (mkKey ftpPath f) f])) ∧
    ((files.foldl (v2Step pfx delim ftpPath) ⟨[], [], []⟩).cpfxs).Nodup ∧
    ((handleListObjectsV2 bEx rEx).v2.map
        (fun v => (v.contents.map (fun o => o.key), v.commonPfxs))
      = some (["a/x.txt"], ["a/sub/"])) := by
  refine ⟨?_, ?_, ?_⟩
  · intro hd hh
    have hps : (f.name == "." || f.name == "..") = false := nonhidden_not_pseudo f.name hh
    have hbne : (delim != "") = true := by simp [bne, hd]
    constructor
    · intro i hi
      simp [v2Step, hh, hps, hbne, hi]
      constructor
      · split <;> rfl
      · split <;> rfl
    · intro hi
      simp [v2Step, hh, hps, hbne, hi]
  · exact v2fold_nodup pfx delim ftpPath files ⟨[], [], []⟩ List.nodup_nil (by simp)
  · rfl

/-- Claim C9: a GET request for `/health` passes the middleware unchanged
without any authentication step — for every store, signature function and
timestamp — and the gateway answers 200 with body `"ok"` while invoking no
Backend Session operation. -/
theorem claim_C9_health_bypass (store : List Credentials)
    (signAuth : Credentials → Request → String) (amzDate : String) (b : Backend)
    (r : Request) (hm : r.method = "GET") (hp : r.path = "/health") :
    serveAuth store signAuth amzDate r = .forwarded r ∧
    (serveS3 b r).status = 200 ∧ (serveS3 b r).body = "ok" ∧ (serveS3 b r).ops = [] := by
  constructor
  · simp [serveAuth, hp]
  · have hbucket : (goTrimSlashes "/health" == "default") = false := rfl
    have hcount : (goCountSlash "/health" == 1) = true := rfl
    simp [serveS3, hm, hp, hbucket]

/-- Claim C9 witness: `/health` bypasses both layers at the concrete store,
signer and backend fixtures. -/
theorem claim_C9_health_bypass_witness :
    serveAuth storeA sigFun "20250101T000000Z" rHealth = .forwarded rHealth ∧
    (serveS3 bDel rHealth).status = 200 ∧ (serveS3 bDel rHealth).body = "ok" ∧
    (serveS3 bDel rHealth).ops = [] :=
  claim_C9_health_bypass storeA sigFun "20250101T000000Z" bDel rHealth rfl rfl

/-- Claim C10: a HEAD on `/default/<key>` whose base name is hidden (begins
with `'.'`) answers 200 with the matched entry's Content-Length and
Last-Modified whenever the parent listing holds an entry of that exact
name; yet neither the V2 nor the V1 listing loop ever emits a content entry
whose key has a hidden base name (for backend entries with non-empty,
slash-free names). -/
theorem claim_C10_head_hidden_key (b : Backend) (key : String) (files : List FileInfo)
    (f : FileInfo) (_hhid : hiddenName (goBase key) = true)
    (hlist : b.list (if goDir key == "." then "" else goDir key) = .ok files)
    (hfind : files.find? (fun g => g.name == goBase key) = some f) :
    handleHead b ⟨"HEAD", "/default/" ++ key, [], [], ""⟩
      = { status := 200, body := "",
          headers := [("Content-Length", toString f.size),
                      ("Last-Modified", formatHTTPTime f.modTime), ("ETag", emptyMD5),
                      ("Accept-Ranges", "bytes"), ("Content-Type", "application/octet-stream")],
          ops := ["list " ++ (if goDir key == "." then "" else goDir key)] } ∧
    (∀ (pfx delim ftpPath : String) (files2 : List FileInfo),
      (∀ g ∈ files2, g.name.data ≠ [] ∧ '/' ∉ g.name.data) →
      ((∀ o ∈ (files2.foldl (v2Step pfx delim ftpPath) ⟨[], [], []⟩).contents,
          hiddenName (goBase o.key) = false) ∧
       (∀ o ∈ files2.foldl (v1Step ftpPath) [], hiddenName (goBase o.key) = false))) := by
  constructor
  · have hlist2 : b.list (if goDir key = "." then "" else goDir key) = .ok files := by
      simpa using hlist
    simp [handleHead, goTrimPfx_append, hlist2, hfind]
  · intro pfx delim ftpPath files2 hn
    exact ⟨v2fold_contents_nonhidden pfx delim ftpPath files2 hn ⟨[], [], []⟩ (by simp),
           v1fold_contents_nonhidden ftpPath files2 hn [] (by simp)⟩

/-- Claim C10 witness: HEAD on `/default/.hidden` answers 200 with size 5
and the listed timestamp on the backend `bHid`, while the V2 and V1 loops
over the same listing never emit a hidden base name. -/
theorem claim_C10_head_hidden_key_witness :
    handleHead bHid ⟨"HEAD", "/default/" ++ ".hidden", [], [], ""⟩
      = { status := 200, body := "",
          headers := [("Content-Length", toString fHid.size),
                      ("Last-Modified", formatHTTPTime fHid.modTime), ("ETag", emptyMD5),
                      ("Accept-Ranges", "bytes"), ("Content-Type", "application/octet-stream")],
          ops := ["list " ++ (if goDir ".hidden" == "." then "" else goDir ".hidden")] } ∧
    (∀ (pfx delim ftpPath : String) (files2 : List FileInfo),
      (∀ g ∈ files2, g.name.data ≠ [] ∧ '/' ∉ g.name.data) →
      ((∀ o ∈ (files2.foldl (v2Step pfx delim ftpPath) ⟨[], [], []⟩).contents,
          hiddenName (goBase o.key) = false) ∧
       (∀ o ∈ files2.foldl (v1Step ftpPath) [], hiddenName (goBase o.key) = false))) :=
  claim_C10_head_hidden_key bHid ".hidden" filesHid fHid rfl rfl rfl

end FtpOverS3
